import Mathlib

/-!
Shallow embedding of the decision-aid app's core randomness logic:
the wheel angle-to-index mapper (`pickIndex`), the spin winner
determination (`spinWinner`), the bounded random-integer generator
(`generateNumbers`), the RNG settings validation
(`validateAndSaveSettings`) and the wheel-list update (`updateWheel`).

JavaScript numbers are modelled as rationals (every finite double is a
rational and all arithmetic appearing in the claims is exact), and the
JavaScript `%` operator (remainder truncated toward zero) is modelled
explicitly by `jsMod`.  `Math.random()` is modelled as a stream of
rationals in [0, 1) consumed one value per call.
-/

namespace Decider

/-- JavaScript truncation toward zero, as used by the `%` operator. -/
def jsTrunc (x : ℚ) : ℤ :=
  if 0 ≤ x then ⌊x⌋ else ⌈x⌉

/-- The JavaScript remainder operator `x % y`: the sign follows the
dividend, `x % y = x - y * trunc(x / y)`. -/
def jsMod (x y : ℚ) : ℚ :=
  x - y * jsTrunc (x / y)

/-- The normalization `((x % 360) + 360) % 360` used throughout the
source to bring an angle into [0, 360). -/
def jsNorm (x : ℚ) : ℚ :=
  jsMod (jsMod x 360 + 360) 360

/-- `Math.floor` on a rational, returning an integer. -/
def jsFloor (x : ℚ) : ℤ := ⌊x⌋

/-- `pickIndex` from `app/(tabs)/index.js` (identical copy in
`app/details/[id].js`): maps the wheel's final rotation to an option
index among `n` equal sectors, with the fixed pointer bias of -15
degrees. -/
def pickIndex (finalDeg : ℚ) (n : ℕ) (baseOffsetDeg : ℚ) : ℤ :=
  let pointerBiasDeg : ℚ := -15
  let seg : ℚ := 360 / n
  let norm : ℚ := jsNorm finalDeg
  let a : ℚ := jsMod (baseOffsetDeg + pointerBiasDeg + seg / 2 - norm + 360) 360
  jsFloor (a / seg)

lemma jsTrunc_of_nonneg {x : ℚ} (h : 0 ≤ x) : jsTrunc x = ⌊x⌋ := if_pos h

lemma jsTrunc_of_neg {x : ℚ} (h : x < 0) : jsTrunc x = ⌈x⌉ := if_neg (not_le.mpr h)

lemma jsMod_of_nonneg {x : ℚ} (y : ℚ) (hx : 0 ≤ x) (hy : 0 < y) :
    jsMod x y = x - y * ⌊x / y⌋ := by
  rw [jsMod, jsTrunc_of_nonneg (div_nonneg hx hy.le)]

/-- For a nonnegative dividend, the JS remainder by a positive modulus is
the true remainder, lying in `[0, y)`. -/
lemma jsMod_nonneg_lt {x : ℚ} (y : ℚ) (hx : 0 ≤ x) (hy : 0 < y) :
    0 ≤ jsMod x y ∧ jsMod x y < y := by
  rw [jsMod_of_nonneg y hx hy]
  constructor
  · have h := Int.floor_le (x / y)
    have h2 : y * (⌊x / y⌋ : ℚ) ≤ y * (x / y) := by
      exact mul_le_mul_of_nonneg_left h hy.le
    have h3 : y * (x / y) = x := by field_simp
    linarith
  · have h := Int.lt_floor_add_one (x / y)
    have h2 : y * (x / y) < y * ((⌊x / y⌋ : ℚ) + 1) := by
      exact mul_lt_mul_of_pos_left h hy
    have h3 : y * (x / y) = x := by field_simp
    nlinarith

/-- Applying the outer `% 360` after adding 360 to a value in `[0, 360)`
recovers the value. -/
lemma jsMod_shift_of_nonneg (m : ℚ) (h0 : 0 ≤ m) (h1 : m < 360) :
    jsMod (m + 360) 360 = m := by
  rw [jsMod_of_nonneg 360 (by linarith) (by norm_num)]
  have hfl : ⌊(m + 360) / 360⌋ = 1 := by
    rw [Int.floor_eq_iff]
    constructor
    · rw [le_div_iff₀ (show (0:ℚ) < 360 by norm_num)]
      push_cast
      linarith
    · rw [div_lt_iff₀ (show (0:ℚ) < 360 by norm_num)]
      push_cast
      linarith
  rw [hfl]
  push_cast
  ring

/-- Applying the outer `% 360` after adding 360 to a value in `(-360, 0)`
just performs the shift. -/
lemma jsMod_shift_of_neg (m : ℚ) (h0 : -360 < m) (h1 : m < 0) :
    jsMod (m + 360) 360 = m + 360 := by
  rw [jsMod_of_nonneg 360 (by linarith) (by norm_num)]
  have hfl : ⌊(m + 360) / 360⌋ = 0 := by
    rw [Int.floor_eq_iff]
    constructor
    · push_cast
      exact div_nonneg (by linarith) (by norm_num)
    · rw [div_lt_iff₀ (show (0:ℚ) < 360 by norm_num)]
      push_cast
      linarith
  rw [hfl]
  push_cast
  ring

/-- The source's `((x % 360) + 360) % 360` equals the mathematical
modulus `x - 360 * ⌊x / 360⌋`. -/
lemma jsNorm_eq (x : ℚ) : jsNorm x = x - 360 * ⌊x / 360⌋ := by
  have hx360 : 360 * (x / 360) = x := by field_simp
  rcases le_or_lt 0 x with hx | hx
  · -- nonnegative dividend: inner jsMod is already the true remainder
    have h1 : jsMod x 360 = x - 360 * ⌊x / 360⌋ := jsMod_of_nonneg 360 hx (by norm_num)
    have h2 := jsMod_nonneg_lt 360 hx (show (0:ℚ) < 360 by norm_num)
    rw [h1] at h2
    rw [jsNorm, h1, jsMod_shift_of_nonneg _ h2.1 h2.2]
  · -- negative dividend: inner jsMod uses the ceiling
    have hdiv : x / 360 < 0 := div_neg_of_neg_of_pos hx (by norm_num)
    have h1 : jsMod x 360 = x - 360 * ⌈x / 360⌉ := by
      rw [jsMod, jsTrunc_of_neg hdiv]
    have hm_le : x - 360 * (⌈x / 360⌉ : ℚ) ≤ 0 := by
      have h := Int.le_ceil (x / 360)
      have h2 : 360 * (x / 360) ≤ 360 * (⌈x / 360⌉ : ℚ) :=
        mul_le_mul_of_nonneg_left h (by norm_num)
      linarith
    have hm_gt : -360 < x - 360 * (⌈x / 360⌉ : ℚ) := by
      have h := Int.ceil_lt_add_one (x / 360)
      have h2 : 360 * (⌈x / 360⌉ : ℚ) < 360 * (x / 360 + 1) :=
        mul_lt_mul_of_pos_left h (by norm_num)
      nlinarith
    rcases eq_or_lt_of_le hm_le with hz | hneg
    · -- the dividend is an exact multiple of 360
      have hzq : x / 360 = ((⌈x / 360⌉ : ℤ) : ℚ) := by
        field_simp
        linarith
      rw [jsNorm, h1, hz, jsMod_shift_of_nonneg 0 (by norm_num) (by norm_num)]
      rw [hzq, Int.floor_intCast]
      linarith
    · -- strict remainder: the +360 shifts it into (0, 360)
      have hfl : ⌊x / 360⌋ = ⌈x / 360⌉ - 1 := by
        rw [Int.floor_eq_iff]
        constructor
        · push_cast
          linarith [Int.ceil_lt_add_one (x / 360)]
        · push_cast
          have hne : x / 360 ≠ (⌈x / 360⌉ : ℚ) := by
            intro he
            have hxx : x = 360 * ((⌈x / 360⌉ : ℤ) : ℚ) := by
              rw [← he, hx360]
            linarith [hneg, hxx]
          have := lt_of_le_of_ne (Int.le_ceil (x / 360)) hne
          linarith
      rw [jsNorm, h1, jsMod_shift_of_neg _ hm_gt hneg, hfl]
      push_cast
      ring

/-- The normalized angle lies in `[0, 360)`. -/
lemma jsNorm_bounds (x : ℚ) : 0 ≤ jsNorm x ∧ jsNorm x < 360 := by
  rw [jsNorm_eq]
  constructor
  · have h := Int.floor_le (x / 360)
    have h2 : 360 * (⌊x / 360⌋ : ℚ) ≤ 360 * (x / 360) :=
      mul_le_mul_of_nonneg_left h (by norm_num)
    have h3 : 360 * (x / 360) = x := by field_simp
    linarith
  · have h := Int.lt_floor_add_one (x / 360)
    have h2 : 360 * (x / 360) < 360 * ((⌊x / 360⌋ : ℚ) + 1) :=
      mul_lt_mul_of_pos_left h (by norm_num)
    have h3 : 360 * (x / 360) = x := by field_simp
    nlinarith

/-- The normalization is periodic with period 360. -/
lemma jsNorm_add_int_mul (x : ℚ) (k : ℤ) : jsNorm (x + 360 * k) = jsNorm x := by
  rw [jsNorm_eq, jsNorm_eq]
  have h : (x + 360 * k) / 360 = x / 360 + k := by
    field_simp
    ring
  rw [h, Int.floor_add_int]
  push_cast
  ring

/-- Unfolded form of `pickIndex`. -/
lemma pickIndex_def (finalDeg : ℚ) (n : ℕ) (baseOffsetDeg : ℚ) :
    pickIndex finalDeg n baseOffsetDeg =
      ⌊jsMod (baseOffsetDeg + -15 + (360 / n) / 2 - jsNorm finalDeg + 360) 360 /
        (360 / n)⌋ :=
  rfl

/-- JS remainder of a value already inside `[0, y)` is the value itself. -/
lemma jsMod_of_lt {x : ℚ} (y : ℚ) (h0 : 0 ≤ x) (h1 : x < y) (hy : 0 < y) :
    jsMod x y = x := by
  rw [jsMod_of_nonneg y h0 hy]
  have hfl : ⌊x / y⌋ = 0 := by
    rw [Int.floor_eq_zero_iff]
    constructor
    · exact div_nonneg h0 hy.le
    · rw [div_lt_one hy]
      exact h1
  rw [hfl]
  push_cast
  ring

/-- JS remainder of a small negative value stays negative: `x % y = x`
for `-y < x < 0`. -/
lemma jsMod_of_neg_small {x : ℚ} (y : ℚ) (h0 : -y < x) (h1 : x < 0) (hy : 0 < y) :
    jsMod x y = x := by
  rw [jsMod, jsTrunc_of_neg (div_neg_of_neg_of_pos h1 hy)]
  have hcl : ⌈x / y⌉ = 0 := by
    rw [Int.ceil_eq_zero_iff]
    constructor
    · rw [neg_lt, ← neg_div]
      rw [div_lt_one hy]
      linarith
    · exact div_nonpos_iff.mpr (Or.inr ⟨h1.le, hy.le⟩)
  rw [hcl]
  push_cast
  ring

/-- C9: the angle-to-outcome mapper is periodic in the angle with period
360 degrees: for every angle, every sector count (in particular every
n ≥ 1), every base offset and every integer k, the mapper gives the same
index at `angle + 360*k` as at `angle`. -/
theorem pickIndex_periodic (angle baseOffsetDeg : ℚ) (n : ℕ) (k : ℤ) :
    pickIndex (angle + 360 * k) n baseOffsetDeg = pickIndex angle n baseOffsetDeg := by
  rw [pickIndex_def, pickIndex_def, jsNorm_add_int_mul]

/-- C1 (failing input): with the fixed -15 degree pointer bias the mapper
leaves the advertised range [0, n): at final angle 353 with 24 sectors
and base offset 0 it returns -1, contradicting the code's own
`// 0..n-1` comment. -/
theorem pickIndex_out_of_range_at_353_24 : pickIndex 353 24 0 = -1 := by
  have hnorm : jsNorm 353 = 353 := by
    rw [jsNorm_eq]
    have hfl : ⌊(353 : ℚ) / 360⌋ = 0 := by
      rw [Int.floor_eq_zero_iff]
      constructor <;> norm_num
    rw [hfl]
    norm_num
  rw [pickIndex_def, hnorm]
  have harg : (0 : ℚ) + -15 + 360 / ((24 : ℕ) : ℚ) / 2 - 353 + 360 = -(1/2) := by
    norm_num
  rw [harg, jsMod_of_neg_small 360 (by norm_num) (by norm_num) (by norm_num)]
  have hq : (-(1/2) : ℚ) / (360 / ((24 : ℕ) : ℚ)) = -(1/30) := by
    norm_num
  rw [hq]
  rw [Int.floor_eq_iff]
  constructor <;> push_cast <;> norm_num

/-- For two sectors the mapper stays in range: the bias magnitude 15 is
below the half-sector width 90. -/
lemma pickIndex_two_bounds (f : ℚ) : 0 ≤ pickIndex f 2 0 ∧ pickIndex f 2 0 < 2 := by
  obtain ⟨h0, h1⟩ := jsNorm_bounds f
  rw [pickIndex_def]
  have hseg : (360 : ℚ) / ((2 : ℕ) : ℚ) = 180 := by norm_num
  rw [hseg]
  have harg : (0 : ℚ) + -15 + 180 / 2 - jsNorm f + 360 = 435 - jsNorm f := by ring
  rw [harg]
  have hb := jsMod_nonneg_lt (x := 435 - jsNorm f) 360 (by linarith) (by norm_num)
  constructor
  · exact Int.floor_nonneg.mpr (div_nonneg hb.1 (by norm_num))
  · apply Int.floor_lt.mpr
    rw [div_lt_iff₀ (show (0:ℚ) < 180 by norm_num)]
    push_cast
    linarith [hb.2]

/-- An option of a wheel: `id`, `label`, display colour omitted (it never
reaches the selection logic), `weight` and the `enabled` flag. -/
structure WOption where
  id : String
  label : String
  weight : ℤ
  enabled : Bool
deriving DecidableEq

/-- JavaScript array indexing `arr[i]` with an integer index:
out-of-range (negative included) yields `undefined`, modelled as `none`. -/
def jsIndex {α : Type} (l : List α) (i : ℤ) : Option α :=
  if 0 ≤ i then l.get? i.toNat else none

/-- `getWeightPercentage` from `components/EditWheelBottomSheet.js`: the
only place a weight influences anything — the displayed percentage. -/
def getWeightPercentage (options : List WOption) (weight : ℤ) : ℤ :=
  let totalWeight := (options.map WOption.weight).sum
  if totalWeight > 0 then ⌊(weight : ℚ) / totalWeight * 100 + 1/2⌋ else 0

/-- The final rotation computed by `spinWheel`:
`currentRotation + fullRotations * 360 + randomStopAngle` where
`currentRotation = rotationAnim._value % 360`, `fullRotations = 5 +
r1 * 3` and `randomStopAngle = r2 * 360` for the two `Math.random()`
draws `r1`, `r2`. -/
def spinFinalRotation (prevRotation r1 r2 : ℚ) : ℚ :=
  jsMod prevRotation 360 + (5 + r1 * 3) * 360 + r2 * 360

/-- The sector index computed at spin end:
`pickIndex(finalDeg, enabledOptions.length, 0)`. -/
def spinSelectedIndex (options : List WOption) (prevRotation r1 r2 : ℚ) : ℤ :=
  pickIndex (spinFinalRotation prevRotation r1 r2)
    (options.filter (fun o => o.enabled)).length 0

/-- The winner of a spin (`spinWheel` in `app/(tabs)/index.js` and
`app/details/[id].js`): filter the enabled options, bail out if none,
otherwise index the enabled list by the picked sector. -/
def spinWinner (options : List WOption) (prevRotation r1 r2 : ℚ) : Option WOption :=
  let enabledOptions := options.filter (fun o => o.enabled)
  if enabledOptions.length = 0 then none
  else jsIndex enabledOptions (spinSelectedIndex options prevRotation r1 r2)

/-- The fields of an option other than its weight. -/
def optView (o : WOption) : String × String × Bool :=
  (o.id, o.label, o.enabled)

/-- Indexing two lists that agree outside their weights yields options
with the same id. -/
lemma jsIndex_map_id_eq {l1 l2 : List WOption}
    (h : l1.map optView = l2.map optView) (i : ℤ) :
    Option.map WOption.id (jsIndex l1 i) = Option.map WOption.id (jsIndex l2 i) := by
  unfold jsIndex
  split
  · have h1 : (l1.get? i.toNat).map optView = (l2.get? i.toNat).map optView := by
      rw [← List.get?_map, ← List.get?_map, h]
    have hproj : ∀ l : List WOption,
        Option.map WOption.id (l.get? i.toNat)
          = Option.map (fun p => p.1) ((l.get? i.toNat).map optView) := by
      intro l
      cases l.get? i.toNat <;> rfl
    rw [hproj l1, hproj l2, h1]
  · rfl

/-- C2: weight noninterference. If two wheels have enabled options that
agree in number, order, ids, labels and enabled flags — while the
weights may differ arbitrarily — then a spin from the same previous
rotation with the same two random draws selects the same sector index
and a winner with the same id: weights never influence the outcome. -/
theorem spin_weight_noninterference (opts1 opts2 : List WOption) (prev r1 r2 : ℚ)
    (h : (opts1.filter (fun o => o.enabled)).map optView
       = (opts2.filter (fun o => o.enabled)).map optView) :
    spinSelectedIndex opts1 prev r1 r2 = spinSelectedIndex opts2 prev r1 r2 ∧
    Option.map WOption.id (spinWinner opts1 prev r1 r2)
      = Option.map WOption.id (spinWinner opts2 prev r1 r2) := by
  have hlen : (opts1.filter (fun o => o.enabled)).length
      = (opts2.filter (fun o => o.enabled)).length := by
    have h2 := congrArg List.length h
    simpa using h2
  have hidx : spinSelectedIndex opts1 prev r1 r2 = spinSelectedIndex opts2 prev r1 r2 := by
    rw [spinSelectedIndex, spinSelectedIndex, hlen]
  refine ⟨hidx, ?_⟩
  rw [spinWinner, spinWinner, hlen, hidx]
  by_cases hz : (opts2.filter (fun o => o.enabled)).length = 0
  · rw [if_pos hz, if_pos hz]
  · rw [if_neg hz, if_neg hz]
    exact jsIndex_map_id_eq h _

/-- Two concrete wheels differing only in weights. -/
def wheelOptsLight : List WOption :=
  [⟨"x", "X", 10, true⟩, ⟨"y", "Y", 20, false⟩, ⟨"z", "Z", 30, true⟩]

/-- Same wheel with very different weights. -/
def wheelOptsHeavy : List WOption :=
  [⟨"x", "X", 99, true⟩, ⟨"y", "Y", 1, false⟩, ⟨"z", "Z", 42, true⟩]

/-- Witness for C2 at concrete wheels and draws. -/
theorem spin_weight_noninterference_witness :
    spinSelectedIndex wheelOptsLight 0 0 0 = spinSelectedIndex wheelOptsHeavy 0 0 0 ∧
    Option.map WOption.id (spinWinner wheelOptsLight 0 0 0)
      = Option.map WOption.id (spinWinner wheelOptsHeavy 0 0 0) :=
  spin_weight_noninterference wheelOptsLight wheelOptsHeavy 0 0 0 rfl

/-- The three-option scenario from the spec: `a` and `b` enabled, `c`
disabled. -/
def scenarioOpts : List WOption :=
  [⟨"a", "a", 50, true⟩, ⟨"b", "b", 50, true⟩, ⟨"c", "c", 50, false⟩]

/-- C4: a spin winner is always one of the wheel's options with
`enabled = true` (a disabled option is never selected), and in the
spec's scenario with `a`, `b` enabled and `c` disabled every spin
returns `a` or `b`. -/
theorem spinWinner_only_enabled :
    (∀ (options : List WOption) (prev r1 r2 : ℚ) (o : WOption),
        spinWinner options prev r1 r2 = some o → o ∈ options ∧ o.enabled = true) ∧
    (∀ prev r1 r2 : ℚ, ∃ o : WOption,
        spinWinner scenarioOpts prev r1 r2 = some o ∧ (o.id = "a" ∨ o.id = "b")) := by
  constructor
  · intro options prev r1 r2 o h
    rw [spinWinner] at h
    by_cases hz : (options.filter (fun o => o.enabled)).length = 0
    · rw [if_pos hz] at h
      exact absurd h (by simp)
    · rw [if_neg hz, jsIndex] at h
      split at h
      · have hmem := List.get?_mem h
        rw [List.mem_filter] at hmem
        exact ⟨hmem.1, hmem.2⟩
      · exact absurd h (by simp)
  · intro prev r1 r2
    have hb := pickIndex_two_bounds (spinFinalRotation prev r1 r2)
    have hw : spinWinner scenarioOpts prev r1 r2
        = jsIndex [⟨"a", "a", 50, true⟩, ⟨"b", "b", 50, true⟩]
            (pickIndex (spinFinalRotation prev r1 r2) 2 0) := rfl
    have h01 : pickIndex (spinFinalRotation prev r1 r2) 2 0 = 0 ∨
        pickIndex (spinFinalRotation prev r1 r2) 2 0 = 1 := by omega
    rcases h01 with h0 | h1
    · exact ⟨⟨"a", "a", 50, true⟩, by rw [hw, h0]; rfl, Or.inl rfl⟩
    · exact ⟨⟨"b", "b", 50, true⟩, by rw [hw, h1]; rfl, Or.inr rfl⟩

/-- Witness for C4: at previous rotation 0 and both draws 0, the spin on
the scenario wheel picks option `a`, which is an enabled option of the
wheel. -/
theorem spinWinner_only_enabled_witness :
    (⟨"a", "a", 50, true⟩ : WOption) ∈ scenarioOpts ∧
    (⟨"a", "a", 50, true⟩ : WOption).enabled = true := by
  have hm0 : jsMod (0 : ℚ) 360 = 0 := jsMod_of_lt 360 le_rfl (by norm_num) (by norm_num)
  have hfin : spinFinalRotation 0 0 0 = 1800 := by
    rw [spinFinalRotation, hm0]
    norm_num
  have hnorm : jsNorm 1800 = 0 := by
    rw [jsNorm_eq, show (1800 : ℚ) / 360 = ((5 : ℤ) : ℚ) by norm_num, Int.floor_intCast]
    norm_num
  have hpick : pickIndex 1800 2 0 = 0 := by
    rw [pickIndex_def, hnorm]
    have hseg : (360 : ℚ) / ((2 : ℕ) : ℚ) = 180 := by norm_num
    rw [hseg]
    have harg : (0 : ℚ) + -15 + 180 / 2 - 0 + 360 = 435 := by norm_num
    rw [harg]
    have hmod : jsMod (435 : ℚ) 360 = 75 := by
      rw [jsMod_of_nonneg 360 (by norm_num) (by norm_num)]
      rw [show ⌊(435 : ℚ) / 360⌋ = 1 from by rw [Int.floor_eq_iff]; constructor <;> norm_num]
      norm_num
    rw [hmod]
    rw [show ⌊(75 : ℚ) / 180⌋ = 0 from by rw [Int.floor_eq_zero_iff]; constructor <;> norm_num]
  have heval : spinWinner scenarioOpts 0 0 0 = some ⟨"a", "a", 50, true⟩ := by
    have hw : spinWinner scenarioOpts 0 0 0
        = jsIndex [⟨"a", "a", 50, true⟩, ⟨"b", "b", 50, true⟩]
            (pickIndex (spinFinalRotation 0 0 0) 2 0) := rfl
    rw [hw, hfin, hpick]
    rfl
  exact spinWinner_only_enabled.1 scenarioOpts 0 0 0 _ heval

/-- The RNG configuration of `app/create.js` (`rngConfig`): bounds,
count, duplicate allowance, and the stored last results. -/
structure RngConfig where
  min : ℤ
  max : ℤ
  count : ℤ
  allowDuplicates : Bool
  lastResults : Option (List ℤ)
deriving DecidableEq

/-- `Math.floor(Math.random() * (max - min + 1)) + min` for one random
draw `r`. -/
def jsRandInt (mn mx : ℤ) (r : ℚ) : ℤ :=
  ⌊r * ((mx : ℚ) - (mn : ℚ) + 1)⌋ + mn

/-- The retry cap of the duplicate-avoiding loop
(`if (attempts > 1000) break`). -/
def retryCap : ℕ := 1000

/-- The inner `do ... while` of `generateNumbers`: draw, and re-draw
while duplicates are disallowed and the value was already used; the
argument counts the conditional re-checks still allowed (the source
allows 1000 checked draws, then one final unconditional draw). Returns
the drawn value and the next unread stream position. -/
def drawOneAux (allowDup : Bool) (mn mx : ℤ) (used : List ℤ)
    (stream : ℕ → ℚ) : ℕ → ℕ → ℤ × ℕ
  | pos, 0 => (jsRandInt mn mx (stream pos), pos + 1)
  | pos, fuel + 1 =>
    let v := jsRandInt mn mx (stream pos)
    if allowDup = false ∧ v ∈ used then
      drawOneAux allowDup mn mx used stream (pos + 1) fuel
    else (v, pos + 1)

/-- One number of `generateNumbers`: the retry loop with its cap. -/
def drawOne (allowDup : Bool) (mn mx : ℤ) (used : List ℤ)
    (stream : ℕ → ℚ) (pos : ℕ) : ℤ × ℕ :=
  drawOneAux allowDup mn mx used stream pos retryCap

/-- The `for (let i = 0; i < rngConfig.count; i++)` loop of
`generateNumbers`: accumulates `results` (pushed in order) and the
`usedNumbers` set (modelled as the list of values added so far). -/
def genAux (allowDup : Bool) (mn mx : ℤ) (stream : ℕ → ℚ) :
    ℕ → ℕ → List ℤ → List ℤ → List ℤ
  | 0, _pos, results, _used => results
  | k + 1, pos, results, used =>
    let vp := drawOne allowDup mn mx used stream pos
    genAux allowDup mn mx stream k vp.2 (results ++ [vp.1]) (vp.1 :: used)

/-- `generateNumbers` from `app/create.js`: fails (alert, no draw) when
count exceeds the range size with duplicates disallowed; otherwise draws
`count` numbers. -/
def generateNumbers (cfg : RngConfig) (stream : ℕ → ℚ) : Option (List ℤ) :=
  if cfg.count > cfg.max - cfg.min + 1 ∧ cfg.allowDuplicates = false then none
  else some (genAux cfg.allowDuplicates cfg.min cfg.max stream cfg.count.toNat 0 [] [])

/-- The state effect of `generateNumbers` on the stored configuration:
on success `lastResults` is overwritten, on the validation error nothing
is written. -/
def runGenerate (cfg : RngConfig) (stream : ℕ → ℚ) : RngConfig :=
  match generateNumbers cfg stream with
  | none => cfg
  | some rs => { cfg with lastResults := some rs }

/-- The all-zeros random stream (every `Math.random()` call returns 0). -/
def zeroStream : ℕ → ℚ := fun _ => 0

lemma drawOneAux_zero (allowDup : Bool) (mn mx : ℤ) (used : List ℤ)
    (stream : ℕ → ℚ) (pos : ℕ) :
    drawOneAux allowDup mn mx used stream pos 0
      = (jsRandInt mn mx (stream pos), pos + 1) := rfl

lemma drawOneAux_succ_retry {allowDup : Bool} {mn mx : ℤ} {used : List ℤ}
    {stream : ℕ → ℚ} {pos fuel : ℕ}
    (hc : allowDup = false ∧ jsRandInt mn mx (stream pos) ∈ used) :
    drawOneAux allowDup mn mx used stream pos (fuel + 1)
      = drawOneAux allowDup mn mx used stream (pos + 1) fuel := by
  simp only [drawOneAux]
  rw [if_pos hc]

lemma drawOneAux_succ_stop {allowDup : Bool} {mn mx : ℤ} {used : List ℤ}
    {stream : ℕ → ℚ} {pos fuel : ℕ}
    (hc : ¬(allowDup = false ∧ jsRandInt mn mx (stream pos) ∈ used)) :
    drawOneAux allowDup mn mx used stream pos (fuel + 1)
      = (jsRandInt mn mx (stream pos), pos + 1) := by
  simp only [drawOneAux]
  rw [if_neg hc]

/-- Each number consumes at most `fuel + 1` stream positions. -/
lemma drawOneAux_pos_le (allowDup : Bool) (mn mx : ℤ) (used : List ℤ)
    (stream : ℕ → ℚ) :
    ∀ fuel pos, (drawOneAux allowDup mn mx used stream pos fuel).2 ≤ pos + fuel + 1 := by
  intro fuel
  induction fuel with
  | zero =>
    intro pos
    rw [drawOneAux_zero]
  | succ n ih =>
    intro pos
    by_cases hc : allowDup = false ∧ jsRandInt mn mx (stream pos) ∈ used
    · rw [drawOneAux_succ_retry hc]
      have := ih (pos + 1)
      omega
    · rw [drawOneAux_succ_stop hc]
      omega

/-- Whatever the retries did, the returned value is some draw of the
stream pushed through `jsRandInt`. -/
lemma drawOneAux_val (allowDup : Bool) (mn mx : ℤ) (used : List ℤ)
    (stream : ℕ → ℚ) :
    ∀ fuel pos, ∃ p, (drawOneAux allowDup mn mx used stream pos fuel).1
      = jsRandInt mn mx (stream p) := by
  intro fuel
  induction fuel with
  | zero =>
    intro pos
    exact ⟨pos, by rw [drawOneAux_zero]⟩
  | succ n ih =>
    intro pos
    by_cases hc : allowDup = false ∧ jsRandInt mn mx (stream pos) ∈ used
    · rw [drawOneAux_succ_retry hc]
      exact ih (pos + 1)
    · exact ⟨pos, by rw [drawOneAux_succ_stop hc]⟩

/-- Every iteration of the generation loop appends exactly one value. -/
lemma genAux_length (allowDup : Bool) (mn mx : ℤ) (stream : ℕ → ℚ) :
    ∀ k pos results used,
      (genAux allowDup mn mx stream k pos results used).length
        = results.length + k := by
  intro k
  induction k with
  | zero =>
    intro pos results used
    rfl
  | succ n ih =>
    intro pos results used
    rw [genAux, ih]
    simp
    omega

/-- Every element of the loop's output is either carried over from the
accumulator or produced by `jsRandInt` on some stream value. -/
lemma genAux_mem (allowDup : Bool) (mn mx : ℤ) (stream : ℕ → ℚ) :
    ∀ k pos results used x,
      x ∈ genAux allowDup mn mx stream k pos results used →
      x ∈ results ∨ ∃ p, x = jsRandInt mn mx (stream p) := by
  intro k
  induction k with
  | zero =>
    intro pos results used x hx
    exact Or.inl hx
  | succ n ih =>
    intro pos results used x hx
    rw [genAux] at hx
    rcases ih _ _ _ x hx with h | h
    · rcases List.mem_append.mp h with h2 | h2
      · exact Or.inl h2
      · obtain ⟨p, hp⟩ := drawOneAux_val allowDup mn mx used stream retryCap pos
        have hxv : x = (drawOne allowDup mn mx used stream pos).1 := by
          simpa using h2
        exact Or.inr ⟨p, by rw [hxv, drawOne, hp]⟩
    · exact Or.inr h

/-- A single uniform draw scaled to `[min, max]` stays inside the
bounds. -/
lemma jsRandInt_bounds (mn mx : ℤ) (h : mn ≤ mx) {r : ℚ}
    (h0 : 0 ≤ r) (h1 : r < 1) :
    mn ≤ jsRandInt mn mx r ∧ jsRandInt mn mx r ≤ mx := by
  rw [jsRandInt]
  have hle : (mn : ℚ) ≤ (mx : ℚ) := by exact_mod_cast h
  have hspan : (0 : ℚ) < (mx : ℚ) - (mn : ℚ) + 1 := by linarith
  constructor
  · have hnn : 0 ≤ ⌊r * ((mx : ℚ) - (mn : ℚ) + 1)⌋ :=
      Int.floor_nonneg.mpr (mul_nonneg h0 hspan.le)
    omega
  · have hlt : r * ((mx : ℚ) - (mn : ℚ) + 1) < (mx : ℚ) - (mn : ℚ) + 1 := by
      nlinarith
    have hfl : ⌊r * ((mx : ℚ) - (mn : ℚ) + 1)⌋ < mx - mn + 1 := by
      apply Int.floor_lt.mpr
      push_cast
      linarith
    omega

/-- `Math.random() = 0` draws the minimum. -/
lemma jsRandInt_zero (mn mx : ℤ) : jsRandInt mn mx 0 = mn := by
  rw [jsRandInt, zero_mul, Int.floor_zero, zero_add]

/-- C5: when duplicates are disallowed and count exceeds the range size,
`generateNumbers` fails the validation, produces no result list, and the
stored configuration (including `lastResults`) is left unchanged. -/
theorem generateNumbers_rejects_invalid (cfg : RngConfig) (stream : ℕ → ℚ)
    (hc : cfg.count > cfg.max - cfg.min + 1) (hd : cfg.allowDuplicates = false) :
    generateNumbers cfg stream = none ∧ runGenerate cfg stream = cfg := by
  have h : generateNumbers cfg stream = none := by
    rw [generateNumbers, if_pos ⟨hc, hd⟩]
  exact ⟨h, by simp [runGenerate, h]⟩

/-- Witness for C5: the spec's example `(1, 3, 4, false)`. -/
theorem generateNumbers_rejects_invalid_witness :
    generateNumbers ⟨1, 3, 4, false, none⟩ zeroStream = none ∧
    runGenerate ⟨1, 3, 4, false, none⟩ zeroStream = ⟨1, 3, 4, false, none⟩ :=
  generateNumbers_rejects_invalid ⟨1, 3, 4, false, none⟩ zeroStream (by decide) rfl

/-- C6: the duplicate-avoiding loop always terminates within the cap —
per number at most `retryCap` re-draws happen (so at most
`retryCap + 1` stream values are consumed), and a value is appended for
every requested number regardless of the cap being hit, so a successful
generation always returns exactly `count` values. -/
theorem drawLoop_cap_and_progress :
    (∀ (allowDup : Bool) (mn mx : ℤ) (used : List ℤ) (stream : ℕ → ℚ) (pos : ℕ),
        (drawOne allowDup mn mx used stream pos).2 ≤ pos + retryCap + 1) ∧
    (∀ (cfg : RngConfig) (stream : ℕ → ℚ) (l : List ℤ),
        generateNumbers cfg stream = some l → l.length = cfg.count.toNat) := by
  constructor
  · intro allowDup mn mx used stream pos
    exact drawOneAux_pos_le allowDup mn mx used stream retryCap pos
  · intro cfg stream l h
    rw [generateNumbers] at h
    split_ifs at h with hg
    have hl := Option.some.inj h
    rw [← hl, genAux_length]
    simp

/-- Concrete evaluation: drawing one number in `[1, 6]` with duplicates
allowed from the all-zeros stream yields `[1]`. -/
lemma generateNumbers_161_eval :
    generateNumbers ⟨1, 6, 1, true, none⟩ zeroStream = some [1] := by
  rw [generateNumbers, if_neg (by decide)]
  have hd : drawOne true 1 6 [] zeroStream 0 = (1, 1) := by
    rw [drawOne, show retryCap = 999 + 1 from rfl,
      drawOneAux_succ_stop (by simp)]
    rw [show zeroStream 0 = 0 from rfl, jsRandInt_zero]
  have hg : genAux true 1 6 zeroStream (Int.toNat 1) 0 [] [] = [1] := by
    rw [show Int.toNat 1 = 0 + 1 from rfl, genAux, hd]
    rfl
  rw [show (⟨1, 6, 1, true, none⟩ : RngConfig).count.toNat = Int.toNat 1 from rfl, hg]

/-- Witness for C6 at concrete inputs. -/
theorem drawLoop_cap_and_progress_witness :
    (drawOne false 1 3 [] zeroStream 0).2 ≤ 0 + retryCap + 1 ∧
    ([1] : List ℤ).length = (⟨1, 6, 1, true, none⟩ : RngConfig).count.toNat :=
  ⟨drawLoop_cap_and_progress.1 false 1 3 [] zeroStream 0,
   drawLoop_cap_and_progress.2 ⟨1, 6, 1, true, none⟩ zeroStream [1]
     generateNumbers_161_eval⟩

/-- C7: a successful generation with `min ≤ max` and `count ≥ 1` on a
valid random stream returns exactly `count` integers, each inside
`[min, max]`. -/
theorem generateNumbers_success_shape (cfg : RngConfig) (stream : ℕ → ℚ)
    (hmm : cfg.min ≤ cfg.max) (hcnt : 1 ≤ cfg.count)
    (hs : ∀ i, 0 ≤ stream i ∧ stream i < 1) (l : List ℤ)
    (h : generateNumbers cfg stream = some l) :
    (l.length : ℤ) = cfg.count ∧ ∀ x ∈ l, cfg.min ≤ x ∧ x ≤ cfg.max := by
  rw [generateNumbers] at h
  split_ifs at h with hg
  have hl := Option.some.inj h
  constructor
  · rw [← hl, genAux_length]
    simp
    omega
  · intro x hx
    rw [← hl] at hx
    rcases genAux_mem cfg.allowDuplicates cfg.min cfg.max stream _ _ _ _ x hx with
      hmem | ⟨p, hp⟩
    · exact absurd hmem (by simp)
    · rw [hp]
      exact jsRandInt_bounds cfg.min cfg.max hmm (hs p).1 (hs p).2

/-- Witness for C7: `(1, 6, 1, true)` on the all-zeros stream returns
the single value 1 of `{1,...,6}`. -/
theorem generateNumbers_success_shape_witness :
    (([1] : List ℤ).length : ℤ) = (⟨1, 6, 1, true, none⟩ : RngConfig).count ∧
    ∀ x ∈ ([1] : List ℤ),
      (⟨1, 6, 1, true, none⟩ : RngConfig).min ≤ x ∧
        x ≤ (⟨1, 6, 1, true, none⟩ : RngConfig).max :=
  generateNumbers_success_shape ⟨1, 6, 1, true, none⟩ zeroStream (by decide)
    (by decide) (fun i => ⟨le_rfl, by norm_num [zeroStream]⟩) [1] generateNumbers_161_eval

/-- Against the all-zeros stream, once 1 is already used the retry loop
burns all its fuel and hands back the duplicate 1. -/
lemma drawOneAux_zeroStream_stuck (used : List ℤ) (h : (1 : ℤ) ∈ used) :
    ∀ fuel pos, drawOneAux false 1 3 used zeroStream pos fuel
      = (1, pos + fuel + 1) := by
  intro fuel
  induction fuel with
  | zero =>
    intro pos
    rw [drawOneAux_zero, show zeroStream pos = 0 from rfl, jsRandInt_zero]
  | succ n ih =>
    intro pos
    have hc : (false = false) ∧ jsRandInt 1 3 (zeroStream pos) ∈ used := by
      refine ⟨rfl, ?_⟩
      rw [show zeroStream pos = 0 from rfl, jsRandInt_zero]
      exact h
    rw [drawOneAux_succ_retry hc, ih (pos + 1)]
    refine Prod.ext rfl ?_
    simp
    omega

/-- C3 counterexample: on the legal random stream that always returns 0,
`generateNumbers (1, 3, 3, false)` returns `[1, 1, 1]` — a list with
duplicates that misses the values 2 and 3, so it is not a permutation of
`{1, 2, 3}`. -/
theorem generate_133_counterexample :
    generateNumbers ⟨1, 3, 3, false, none⟩ zeroStream = some [1, 1, 1] ∧
    ¬ ([1, 1, 1] : List ℤ).Nodup ∧ (2 : ℤ) ∉ ([1, 1, 1] : List ℤ) := by
  refine ⟨?_, by decide, by decide⟩
  rw [generateNumbers, if_neg (by decide)]
  have hd1 : drawOne false 1 3 [] zeroStream 0 = (1, 1) := by
    rw [drawOne, show retryCap = 999 + 1 from rfl, drawOneAux_succ_stop (by simp)]
    rw [show zeroStream 0 = 0 from rfl, jsRandInt_zero]
  have hd2 : drawOne false 1 3 [1] zeroStream 1 = (1, 1002) := by
    rw [drawOne, drawOneAux_zeroStream_stuck [1] (by decide) retryCap 1]
    rfl
  have hd3 : drawOne false 1 3 [1, 1] zeroStream 1002 = (1, 2003) := by
    rw [drawOne, drawOneAux_zeroStream_stuck [1, 1] (by decide) retryCap 1002]
    rfl
  have hg : genAux false 1 3 zeroStream 3 0 [] [] = [1, 1, 1] := by
    rw [show (3 : ℕ) = 2 + 1 from rfl, genAux, hd1]
    rw [show (2 : ℕ) = 1 + 1 from rfl, genAux, hd2]
    rw [show (1 : ℕ) = 0 + 1 from rfl, genAux, hd3]
    rfl
  rw [show (⟨1, 3, 3, false, none⟩ : RngConfig).count.toNat = 3 from rfl, hg]

/-- C3 (amended): for every valid random stream, the draw `(1, 3, 3,
false)` succeeds with exactly 3 values, all in `{1, 2, 3}`; whenever the
result is duplicate-free — which is the case whenever the 1000-retry cap
is not exhausted — it is a permutation of exactly `{1, 2, 3}`. -/
theorem generate_133_perm_unless_capped (stream : ℕ → ℚ)
    (hs : ∀ i, 0 ≤ stream i ∧ stream i < 1) :
    ∃ l, generateNumbers ⟨1, 3, 3, false, none⟩ stream = some l ∧
      l.length = 3 ∧ (∀ x ∈ l, 1 ≤ x ∧ x ≤ 3) ∧
      (l.Nodup → ∀ x : ℤ, x ∈ l ↔ x = 1 ∨ x = 2 ∨ x = 3) := by
  refine ⟨genAux false 1 3 stream 3 0 [] [], ?_, ?_, ?_, ?_⟩
  · rw [generateNumbers, if_neg (by decide)]
    rfl
  · rw [genAux_length]
    rfl
  · intro x hx
    rcases genAux_mem false 1 3 stream 3 0 [] [] x hx with hmem | ⟨p, hp⟩
    · exact absurd hmem (by simp)
    · rw [hp]
      exact jsRandInt_bounds 1 3 (by decide) (hs p).1 (hs p).2
  · intro hnd x
    have hlen : (genAux false 1 3 stream 3 0 [] []).length = 3 := by
      rw [genAux_length]
      rfl
    have hsub : (genAux false 1 3 stream 3 0 [] []).toFinset ⊆
        ({1, 2, 3} : Finset ℤ) := by
      intro y hy
      rw [List.mem_toFinset] at hy
      rcases genAux_mem false 1 3 stream 3 0 [] [] y hy with hmem | ⟨p, hp⟩
      · exact absurd hmem (by simp)
      · have hb := jsRandInt_bounds 1 3 (by decide) (hs p).1 (hs p).2
        rw [← hp] at hb
        simp only [Finset.mem_insert, Finset.mem_singleton]
        omega
    have hcard : (genAux false 1 3 stream 3 0 [] []).toFinset.card = 3 := by
      rw [List.toFinset_card_of_nodup hnd, hlen]
    have heq : (genAux false 1 3 stream 3 0 [] []).toFinset = {1, 2, 3} :=
      Finset.eq_of_subset_of_card_le hsub (by rw [hcard]; decide)
    constructor
    · intro hx
      have hm : x ∈ (genAux false 1 3 stream 3 0 [] []).toFinset :=
        List.mem_toFinset.mpr hx
      rw [heq] at hm
      simpa using hm
    · intro hx
      have hm : x ∈ ({1, 2, 3} : Finset ℤ) := by simpa using hx
      rw [← heq] at hm
      exact List.mem_toFinset.mp hm

/-- Witness for the amended C3 on the all-zeros stream. -/
theorem generate_133_perm_unless_capped_witness :
    ∃ l, generateNumbers ⟨1, 3, 3, false, none⟩ zeroStream = some l ∧
      l.length = 3 ∧ (∀ x ∈ l, 1 ≤ x ∧ x ≤ 3) ∧
      (l.Nodup → ∀ x : ℤ, x ∈ l ↔ x = 1 ∨ x = 2 ∨ x = 3) :=
  generate_133_perm_unless_capped zeroStream
    (fun i => ⟨le_rfl, by norm_num [zeroStream]⟩)

/-- `validateAndSaveSettings` from `app/create.js`: swap reversed
bounds, reject a non-positive count, clamp the count to 20, reject a
count exceeding the unique range size when duplicates are disallowed,
otherwise save the normalized configuration. `none` models the early
`return` without `updateRngConfig`. -/
def validateAndSaveSettings (tempConfig : RngConfig) : Option RngConfig :=
  let c1 := if tempConfig.min > tempConfig.max then
      { tempConfig with min := tempConfig.max, max := tempConfig.min }
    else tempConfig
  if c1.count ≤ 0 then none
  else
    let c2 := if c1.count > 20 then { c1 with count := 20 } else c1
    let maxUnique := c2.max - c2.min + 1
    if c2.allowDuplicates = false ∧ c2.count > maxUnique then none
    else some c2

/-- C8: every configuration accepted and saved by
`validateAndSaveSettings` satisfies the RngConfig invariant: normalized
`min ≤ max`, `0 < count ≤ 20` and, when duplicates are disallowed,
`count ≤ max - min + 1`. -/
theorem validateAndSaveSettings_invariant (t c : RngConfig)
    (h : validateAndSaveSettings t = some c) :
    c.min ≤ c.max ∧ 0 < c.count ∧ c.count ≤ 20 ∧
      (c.allowDuplicates = false → c.count ≤ c.max - c.min + 1) := by
  rw [validateAndSaveSettings] at h
  split_ifs at h with h1 h2 h3 h4 h5
  all_goals simp only [] at h
  all_goals split_ifs at h with h6
  all_goals obtain rfl := Option.some.inj h
  all_goals try dsimp only at *
  all_goals refine ⟨by omega, by omega, by omega, fun hd => ?_⟩
  all_goals rw [not_and] at h6
  all_goals have h7 := h6 hd
  all_goals omega

/-- Witness for C8: a configuration with reversed bounds and an
oversized count is normalized into an invariant-satisfying one. -/
theorem validateAndSaveSettings_invariant_witness :
    (⟨1, 30, 20, false, none⟩ : RngConfig).min ≤
        (⟨1, 30, 20, false, none⟩ : RngConfig).max ∧
      0 < (⟨1, 30, 20, false, none⟩ : RngConfig).count ∧
      (⟨1, 30, 20, false, none⟩ : RngConfig).count ≤ 20 ∧
      ((⟨1, 30, 20, false, none⟩ : RngConfig).allowDuplicates = false →
        (⟨1, 30, 20, false, none⟩ : RngConfig).count ≤
          (⟨1, 30, 20, false, none⟩ : RngConfig).max -
            (⟨1, 30, 20, false, none⟩ : RngConfig).min + 1) :=
  validateAndSaveSettings_invariant ⟨30, 1, 25, false, none⟩
    ⟨1, 30, 20, false, none⟩ (by decide)

/-- A wheel as stored in the context: identifier plus payload fields. -/
structure Wheel where
  id : String
  name : String
  options : List WOption
  updatedAt : String
deriving DecidableEq

/-- `updateWheel` from `contexts/AppContext.js`: map over the wheel
list, replacing entries whose id matches the updated wheel's id. -/
def updateWheel (wheels : List Wheel) (updatedWheel : Wheel) : List Wheel :=
  wheels.map fun wheel => if wheel.id = updatedWheel.id then updatedWheel else wheel

/-- C10: frame property of `updateWheel` — the length is preserved and,
position by position, an entry whose id differs from the updated wheel's
id is left exactly unchanged while a matching entry becomes the updated
wheel; relative order is preserved since every index keeps its role. -/
theorem updateWheel_frame (wheels : List Wheel) (w : Wheel) :
    (updateWheel wheels w).length = wheels.length ∧
    ∀ (i : ℕ) (x : Wheel), wheels.get? i = some x →
      (updateWheel wheels w).get? i = some (if x.id = w.id then w else x) := by
  constructor
  · rw [updateWheel, List.length_map]
  · intro i x hx
    rw [updateWheel, List.get?_map, hx]
    rfl

/-- Witness for C10 on a concrete two-wheel list. -/
theorem updateWheel_frame_witness :
    (updateWheel [⟨"w1", "Lunch", [], "t0"⟩, ⟨"w2", "Chores", [], "t0"⟩]
        ⟨"w1", "Dinner", [], "t1"⟩).length
      = ([⟨"w1", "Lunch", [], "t0"⟩, ⟨"w2", "Chores", [], "t0"⟩] : List Wheel).length ∧
    (updateWheel [⟨"w1", "Lunch", [], "t0"⟩, ⟨"w2", "Chores", [], "t0"⟩]
        ⟨"w1", "Dinner", [], "t1"⟩).get? 1
      = some (if (⟨"w2", "Chores", [], "t0"⟩ : Wheel).id = ("w1" : String) then
          (⟨"w1", "Dinner", [], "t1"⟩ : Wheel) else ⟨"w2", "Chores", [], "t0"⟩) :=
  ⟨(updateWheel_frame _ _).1,
   (updateWheel_frame [⟨"w1", "Lunch", [], "t0"⟩, ⟨"w2", "Chores", [], "t0"⟩]
      ⟨"w1", "Dinner", [], "t1"⟩).2 1 ⟨"w2", "Chores", [], "t0"⟩ rfl⟩

end Decider
